import Mathlib

/-!
Shallow embedding of `go/types/scope.go` (package `types`): the `Scope`
data structure with its operations `NewScope`, `Parent`, `NumEntries`,
`IsEmpty`, `At`, `Index`, `Lookup`, `LookupParent`, `Insert`.

Scopes and objects live in mutable heap cells reached through pointers in
the Go code; we model the heap explicitly as a `State` mapping scope ids
and object ids (natural numbers) to their current contents. A Go
`*Scope` value is an `Option Nat` (`none` models the nil pointer), and a
Go `Object` interface value held in an entry list is an object id.
Run-time faults (nil-pointer dereferences) are modelled with `Except`.
-/

set_option autoImplicit false

/-- A Go `*Package` as used by `scope.go`: only its `path` field is read
(`obj.Pkg().path == pkg.path`). -/
structure Package where
  path : String
  deriving DecidableEq, Repr

/-- The capabilities `scope.go` uses from the `Object` interface: `Name()`,
`Pkg()` (which may be the nil `*Package` for builtins, modelled `none`),
and the owning-scope back-reference written by `setParent`. -/
structure ObjState where
  name : String
  pkg : Option Package
  sparent : Option Nat
  deriving DecidableEq, Repr

/-- The two fields of `Scope`: `parent *Scope` and `entries []Object`. -/
structure ScopeState where
  parent : Option Nat
  entries : List Nat
  deriving DecidableEq, Repr

/-- The mutable heap: contents of every scope cell and every object cell. -/
structure State where
  scopes : Nat → ScopeState
  objs : Nat → ObjState

/-- Run-time faults of the modelled code. `nilDeref` is a Go nil-pointer
dereference; `reassignOwner` is a violation of the Object collaborator's
single-assignment owner contract (see `State.setParent`). -/
inductive Fault where
  | nilDeref
  | reassignOwner
  deriving DecidableEq, Repr

/-- Equality of fallible results is decidable componentwise. -/
instance exceptDecEq {e a : Type} [DecidableEq e] [DecidableEq a] : DecidableEq (Except e a) :=
  fun x y =>
    match x, y with
    | .ok u, .ok v =>
      if h : u = v then isTrue (by rw [h]) else isFalse (by intro hc; cases hc; exact h rfl)
    | .error u, .error v =>
      if h : u = v then isTrue (by rw [h]) else isFalse (by intro hc; cases hc; exact h rfl)
    | .ok _, .error _ => isFalse (by intro hc; cases hc)
    | .error _, .ok _ => isFalse (by intro hc; cases hc)

/-- Modelled from the spec: `ast.IsExported`, the language's
public-visibility casing rule, is not part of the sources; per the spec an
exported name is one satisfying the public casing convention, i.e. its
first character is an uppercase letter. -/
def isExported (name : String) : Bool :=
  match name.data with
  | [] => false
  | c :: _ => c.isUpper

/-- The fast path of `Index` (`pkg == nil`): scan `entries`, returning the
position of the first entry whose `Name()` equals `name`, else no match. -/
def nameScan (st : State) (name : String) : List Nat → Option Nat
  | [] => none
  | oid :: rest =>
    if (st.objs oid).name = name then some 0
    else (nameScan st name rest).map (· + 1)

/-- The slow path of `Index` (`pkg != nil`): scan `entries`, matching an
entry when `obj.Name() == name && (ast.IsExported(name) || obj.Pkg().path
== pkg.path)`. Reading `obj.Pkg().path` of an object whose `Pkg()` is the
nil `*Package` is a nil dereference. -/
def qualScan (st : State) (q : Package) (name : String) : List Nat → Except Fault (Option Nat)
  | [] => .ok none
  | oid :: rest =>
    if (st.objs oid).name = name then
      if isExported name then .ok (some 0)
      else
        match (st.objs oid).pkg with
        | none => .error .nilDeref
        | some p =>
          if p.path = q.path then .ok (some 0)
          else (qualScan st q name rest).map (fun r => r.map (· + 1))
    else (qualScan st q name rest).map (fun r => r.map (· + 1))

/-- `Index` restricted to `pkg == nil`, where it cannot fault: `-1` on a
nil scope, otherwise the fast-path scan result (`-1` when not found). -/
def State.indexNil (st : State) (s : Option Nat) (name : String) : Int :=
  match s with
  | none => -1
  | some sid =>
    match nameScan st name (st.scopes sid).entries with
    | some k => (k : Int)
    | none => -1

/-- `Scope.Index`: `-1` on a nil scope; the fast path when `pkg == nil`;
otherwise the qualified scan, which can nil-dereference. -/
def State.index (st : State) (s : Option Nat) (pkg : Option Package) (name : String) :
    Except Fault Int :=
  match s with
  | none => .ok (-1)
  | some sid =>
    match pkg with
    | none => .ok (st.indexNil (some sid) name)
    | some q =>
      (qualScan st q name (st.scopes sid).entries).map
        (fun r => match r with | some k => (k : Int) | none => -1)

/-- `Scope.NumEntries`: `0` when `s == nil`, else `len(s.entries)`. -/
def State.numEntries (st : State) (s : Option Nat) : Int :=
  match s with
  | none => 0
  | some sid => ((st.scopes sid).entries.length : Int)

/-- `Scope.IsEmpty`: `s == nil || len(s.entries) == 0`. -/
def State.isEmpty (st : State) (s : Option Nat) : Bool :=
  match s with
  | none => true
  | some sid => (st.scopes sid).entries.length == 0

/-- `Scope.At`: `s.entries[i]`. Indexing a nil scope's (empty) entries or
an out-of-range position is a run-time fault, modelled `none`. -/
def State.at' (st : State) (s : Option Nat) (i : Int) : Option Nat :=
  match s with
  | none => none
  | some sid => if i < 0 then none else (st.scopes sid).entries.get? i.toNat

/-- `Scope.Lookup`: `At(i)` for `i = Index(pkg, name)` when `i >= 0`, else
the nil Object (`none`). -/
def State.lookup (st : State) (s : Option Nat) (pkg : Option Package) (name : String) :
    Except Fault (Option Nat) :=
  (st.index s pkg name).map (fun i => if 0 ≤ i then st.at' s i else none)

/-- `Scope.LookupParent` with an explicit fuel bound on the number of
parent links followed, paired with the number of scopes visited. `none`
means the fuel ran out before the walk finished (only possible on a cyclic
parent chain, which `NewScope` never builds). The in-scope search is the
unqualified `Index(nil, name)` / `At(i)` pair of the source. -/
def State.lookupParentAux (st : State) (name : String) :
    Nat → Option Nat → Option (Option Nat × Nat)
  | _, none => some (none, 0)
  | 0, some _ => none
  | fuel + 1, some sid =>
    let i := st.indexNil (some sid) name
    if 0 ≤ i then some (st.at' (some sid) i, 1)
    else (st.lookupParentAux name fuel (st.scopes sid).parent).map (fun rc => (rc.1, rc.2 + 1))

/-- `Scope.LookupParent`: the entry found, with the visit count dropped. -/
def State.lookupParent (st : State) (fuel : Nat) (s : Option Nat) (name : String) :
    Option (Option Nat) :=
  (st.lookupParentAux name fuel s).map Prod.fst

/-- Modelled from the spec: `Object.setParent` is not part of the sources;
per the spec the Object collaborator must "accept a single owning-scope
assignment, callable at most once", so a second assignment violates the
contract (fault `reassignOwner`). -/
def State.setParent (st : State) (oid : Nat) (sid : Nat) : Except Fault State :=
  match (st.objs oid).sparent with
  | some _ => .error .reassignOwner
  | none =>
    .ok { st with
          objs := fun k =>
            if k = oid then { st.objs k with sparent := some sid } else st.objs k }

/-- `Scope.Insert`: look up `(obj.Pkg(), obj.Name())` in `s`; on a hit
return the existing entry `alt` and leave the state unchanged; otherwise
append `obj` to `s.entries` (a nil dereference when `s == nil`) and set
the object's owner, returning the nil Object. -/
def State.insert (st : State) (s : Option Nat) (oid : Nat) : Except Fault (State × Option Nat) :=
  match st.lookup s (st.objs oid).pkg (st.objs oid).name with
  | .error f => .error f
  | .ok (some alt) => .ok (st, some alt)
  | .ok none =>
    match s with
    | none => .error .nilDeref
    | some sid =>
      let st1 : State :=
        { st with
          scopes := fun k =>
            if k = sid then { st.scopes k with entries := (st.scopes k).entries ++ [oid] }
            else st.scopes k }
      (st1.setParent oid sid).map (fun st2 => (st2, none))

/-- A sequence of `Insert` calls, each on a target scope, threading the
heap; the first fault aborts the run. -/
def State.runInserts (st : State) : List (Option Nat × Nat) → Except Fault State
  | [] => .ok st
  | (s, oid) :: rest =>
    match st.insert s oid with
    | .error f => .error f
    | .ok (st', _) => st'.runInserts rest

/-- The chain of scopes reachable from `s` through parent links, innermost
first, when that chain is finite and shorter than the fuel. -/
def State.chainList (st : State) : Nat → Option Nat → Option (List Nat)
  | _, none => some []
  | 0, some _ => none
  | fuel + 1, some sid => (st.chainList fuel (st.scopes sid).parent).map (sid :: ·)

/-- The identity-rule match predicate of the qualified `Index` path, as a
boolean on a single entry: name equal, and the name exported or the
entry's package path equal to the qualifier's. (An entry with a nil
package and an unexported matching name makes the source fault instead;
theorems relating this predicate to `Index` carry a no-fault hypothesis.) -/
def qualMatches (st : State) (q : Package) (name : String) (oid : Nat) : Bool :=
  (st.objs oid).name == name &&
    (isExported name ||
      match (st.objs oid).pkg with
      | some p => p.path == q.path
      | none => false)

/-- The conflict check `Insert` performs between one existing entry `a`
and the inserted object `b`, as a pairwise fallible predicate: with
`b.Pkg() == nil` the names alone are compared; otherwise the qualified
identity rule runs and may nil-dereference on `a`. -/
def entryConflict (a b : ObjState) : Except Fault Bool :=
  match b.pkg with
  | none => .ok (a.name == b.name)
  | some q =>
    if a.name = b.name then
      if isExported b.name then .ok true
      else
        match a.pkg with
        | none => .error .nilDeref
        | some p => .ok (p.path == q.path)
    else .ok false

/-! ### Concrete heaps used by the witnesses and the counterexample -/

/-- Builds a concrete heap from finite lists of scope and object cells;
ids beyond the lists hold inert defaults. -/
def mkState (ss : List ScopeState) (os : List ObjState) : State where
  scopes := fun k => (ss.get? k).getD ⟨none, []⟩
  objs := fun k => (os.get? k).getD ⟨"", none, none⟩

/-- A concrete heap: scope 0 is a root holding object 0 (`x` from package
`m`); scopes 1 and 2 are its children, scope 1 holding object 1 (`x` from
package `p`) and scope 2 empty; scope 3 is a root holding objects 2, 3, 4
(`x` from `a`, `x` from `b`, `Y` from `a`); scope 4 holds object 5 (`v`
from `p`); scope 5 is an empty root; scope 6 holds objects 9, 10 (`y`
from `a`, then `x` with a nil package); scope 7 holds objects 11, 10 (`x`
from `b`, then `x` with a nil package). Objects 6, 7, 8 (`v` from `p`,
`w` from `p`, `u` from `q`) are not yet owned by any scope. -/
def stM : State := mkState
  [⟨none, [0]⟩, ⟨some 0, [1]⟩, ⟨some 0, []⟩, ⟨none, [2, 3, 4]⟩,
   ⟨none, [5]⟩, ⟨none, []⟩, ⟨none, [9, 10]⟩, ⟨none, [11, 10]⟩]
  [⟨"x", some ⟨"m"⟩, some 0⟩, ⟨"x", some ⟨"p"⟩, some 1⟩,
   ⟨"x", some ⟨"a"⟩, some 3⟩, ⟨"x", some ⟨"b"⟩, some 3⟩,
   ⟨"Y", some ⟨"a"⟩, some 3⟩, ⟨"v", some ⟨"p"⟩, some 4⟩,
   ⟨"v", some ⟨"p"⟩, none⟩, ⟨"w", some ⟨"p"⟩, none⟩,
   ⟨"u", some ⟨"q"⟩, none⟩, ⟨"y", some ⟨"a"⟩, some 6⟩,
   ⟨"x", none, some 6⟩, ⟨"x", some ⟨"b"⟩, some 7⟩]

/-- The heap after running `Insert` of object 7 into scope 5 on `stM`. -/
def stA : State :=
  match stM.runInserts [(some 5, 7)] with
  | .ok st' => st'
  | .error _ => stM

/-- The heap after a single `Insert` of object 7 into scope 5 on `stM`. -/
def stB : State :=
  match stM.insert (some 5) 7 with
  | .ok (st', _) => st'
  | .error _ => stM


/-! ### Helper lemmas: scan-loop characterizations -/

theorem except_map_ok {ε α β : Type} (f : α → β) (x : Except ε α) (y : β) :
    x.map f = .ok y ↔ ∃ z, x = .ok z ∧ f z = y := by
  cases x <;> simp [Except.map]

theorem nameScan_eq_some (st : State) (n : String) :
    ∀ (l : List Nat) (k : Nat), nameScan st n l = some k →
      ∃ oid, l.get? k = some oid ∧ (st.objs oid).name = n ∧
        ∀ j, j < k → ∀ o2, l.get? j = some o2 → (st.objs o2).name ≠ n := by
  intro l
  induction l with
  | nil => intro k h; simp [nameScan] at h
  | cons o rest ih =>
    intro k h
    by_cases ho : (st.objs o).name = n
    · simp [nameScan, ho] at h
      refine ⟨o, ?_, ho, ?_⟩
      · simp [← h]
      · intro j hj; omega
    · simp [nameScan, ho] at h
      obtain ⟨k', hk', rfl⟩ := h
      obtain ⟨oid, hget, hname, hfirst⟩ := ih k' hk'
      refine ⟨oid, by simpa using hget, hname, ?_⟩
      intro j hj o2 hgo2
      cases j with
      | zero =>
        simp at hgo2
        subst hgo2
        exact ho
      | succ j' => exact hfirst j' (by omega) o2 (by simpa using hgo2)

theorem nameScan_eq_none (st : State) (n : String) :
    ∀ (l : List Nat), nameScan st n l = none ↔ ∀ oid ∈ l, (st.objs oid).name ≠ n := by
  intro l
  induction l with
  | nil => simp [nameScan]
  | cons o rest ih =>
    by_cases ho : (st.objs o).name = n
    · simp [nameScan, ho]
    · simp [nameScan, ho, ih]

theorem qualScan_ok_some (st : State) (q : Package) (n : String) :
    ∀ (l : List Nat) (k : Nat), qualScan st q n l = .ok (some k) →
      ∃ oid, l.get? k = some oid ∧ qualMatches st q n oid = true ∧
        ∀ j, j < k → ∀ o2, l.get? j = some o2 → qualMatches st q n o2 = false := by
  intro l
  induction l with
  | nil => intro k h; simp [qualScan] at h
  | cons o rest ih =>
    intro k h
    by_cases ho : (st.objs o).name = n
    · by_cases he : isExported n
      · simp [qualScan, ho, he] at h
        refine ⟨o, ?_, ?_, ?_⟩
        · simp [← h]
        · simp [qualMatches, ho, he]
        · intro j hj; omega
      · cases hp : (st.objs o).pkg with
        | none => simp [qualScan, ho, he, hp] at h
        | some p =>
          by_cases hq : p.path = q.path
          · simp [qualScan, ho, he, hp, hq] at h
            refine ⟨o, ?_, ?_, ?_⟩
            · simp [← h]
            · simp [qualMatches, ho, hp, hq]
            · intro j hj; omega
          · simp [qualScan, ho, he, hp, hq, except_map_ok] at h
            obtain ⟨r, hr, hmap⟩ := h
            cases r with
            | none => simp at hmap
            | some k' =>
              simp at hmap
              subst hmap
              obtain ⟨oid, hget, hm, hfirst⟩ := ih k' hr
              refine ⟨oid, by simpa using hget, hm, ?_⟩
              intro j hj o2 hgo2
              cases j with
              | zero =>
                simp at hgo2
                subst hgo2
                simp [qualMatches, ho, he, hp, hq]
              | succ j' => exact hfirst j' (by omega) o2 (by simpa using hgo2)
    · simp [qualScan, ho, except_map_ok] at h
      obtain ⟨r, hr, hmap⟩ := h
      cases r with
      | none => simp at hmap
      | some k' =>
        simp at hmap
        subst hmap
        obtain ⟨oid, hget, hm, hfirst⟩ := ih k' hr
        refine ⟨oid, by simpa using hget, hm, ?_⟩
        intro j hj o2 hgo2
        cases j with
        | zero =>
          simp at hgo2
          subst hgo2
          simp [qualMatches, ho]
        | succ j' => exact hfirst j' (by omega) o2 (by simpa using hgo2)

theorem qualScan_ok_none (st : State) (q : Package) (n : String) :
    ∀ (l : List Nat), qualScan st q n l = .ok none →
      ∀ oid ∈ l, qualMatches st q n oid = false := by
  intro l
  induction l with
  | nil => simp
  | cons o rest ih =>
    intro h oid hmem
    by_cases ho : (st.objs o).name = n
    · by_cases he : isExported n
      · simp [qualScan, ho, he] at h
      · cases hp : (st.objs o).pkg with
        | none => simp [qualScan, ho, he, hp] at h
        | some p =>
          by_cases hq : p.path = q.path
          · simp [qualScan, ho, he, hp, hq] at h
          · simp [qualScan, ho, he, hp, hq, except_map_ok] at h
            rcases List.mem_cons.mp hmem with rfl | hmem'
            · simp [qualMatches, ho, he, hp, hq]
            · exact ih h oid hmem'
    · simp [qualScan, ho, except_map_ok] at h
      rcases List.mem_cons.mp hmem with rfl | hmem'
      · simp [qualMatches, ho]
      · exact ih h oid hmem'

/-! ### Claim theorems -/

/-- C6 (I3/P1): for the absent (nil) scope, `NumEntries` is `0`,
`IsEmpty` is `true`, `Index` and `Lookup` with any qualifier and name
return not-found, and `LookupParent` terminates immediately with
not-found after zero scope visits — identical to the read behavior of a
scope with zero entries (and no parent). -/
theorem C6_absent_equals_empty (st : State) :
    st.numEntries none = 0 ∧
    st.isEmpty none = true ∧
    (∀ pkg n, st.index none pkg n = .ok (-1)) ∧
    (∀ pkg n, st.lookup none pkg n = .ok none) ∧
    (∀ n fuel, st.lookupParentAux n fuel none = some (none, 0)) ∧
    (∀ n fuel, st.lookupParent fuel none n = some none) ∧
    (∀ sid, (st.scopes sid).entries = [] → (st.scopes sid).parent = none →
      st.numEntries (some sid) = 0 ∧
      st.isEmpty (some sid) = true ∧
      (∀ pkg n, st.index (some sid) pkg n = .ok (-1)) ∧
      (∀ pkg n, st.lookup (some sid) pkg n = .ok none) ∧
      (∀ n fuel, st.lookupParent (fuel + 1) (some sid) n = some none)) := by
  refine ⟨rfl, rfl, ?_, ?_, ?_, ?_, ?_⟩
  · intro pkg n; cases pkg <;> rfl
  · intro pkg n; cases pkg <;> simp [State.lookup, State.index, Except.map]
  · intro n fuel; cases fuel <;> rfl
  · intro n fuel; cases fuel <;> rfl
  · intro sid hent hpar
    have hidx : ∀ pkg n, st.index (some sid) pkg n = .ok (-1) := by
      intro pkg n
      cases pkg with
      | none => simp [State.index, State.indexNil, hent, nameScan]
      | some q => simp [State.index, hent, qualScan, Except.map]
    refine ⟨?_, ?_, hidx, ?_, ?_⟩
    · simp [State.numEntries, hent]
    · simp [State.isEmpty, hent]
    · intro pkg n
      simp [State.lookup, hidx, Except.map]
    · intro n fuel
      have hnil : st.indexNil (some sid) n = -1 := by
        simp [State.indexNil, hent, nameScan]
      simp [State.lookupParent, State.lookupParentAux, hnil, hpar]

/-- C9 (implicit): `Insert` is not covered by the absence/empty
equivalence: on the nil scope the conflict check (`Lookup`) returns
no-conflict, after which the append to the nil receiver's `entries`
dereferences nil and faults. -/
theorem C9_insert_nil_scope_faults (st : State) (oid : Nat) :
    st.lookup none (st.objs oid).pkg (st.objs oid).name = .ok none ∧
    st.insert none oid = .error .nilDeref := by
  have hl : st.lookup none (st.objs oid).pkg (st.objs oid).name = .ok none := by
    cases hp : (st.objs oid).pkg <;> simp [State.lookup, State.index, Except.map]
  refine ⟨hl, ?_⟩
  simp [State.insert, hl]

/-- C7: with an absent qualifier, `Index(nil, n)` matches on name alone
and returns the position of the first entry in insertion order whose name
equals `n` (every earlier entry has a different name), and a negative
result exactly when no entry is named `n`. -/
theorem C7_unqualified_first_match (st : State) (sid : Nat) (n : String) :
    st.index (some sid) none n = .ok (st.indexNil (some sid) n) ∧
    (0 ≤ st.indexNil (some sid) n →
      ∃ oid, (st.scopes sid).entries.get? (st.indexNil (some sid) n).toNat = some oid ∧
        (st.objs oid).name = n ∧
        ∀ j, j < (st.indexNil (some sid) n).toNat → ∀ o2,
          (st.scopes sid).entries.get? j = some o2 → (st.objs o2).name ≠ n) ∧
    (st.indexNil (some sid) n < 0 →
      ∀ oid ∈ (st.scopes sid).entries, (st.objs oid).name ≠ n) := by
  refine ⟨rfl, ?_, ?_⟩
  · intro hpos
    cases hscan : nameScan st n (st.scopes sid).entries with
    | none => simp [State.indexNil, hscan] at hpos
    | some k =>
      obtain ⟨oid, hget, hname, hfirst⟩ := nameScan_eq_some st n _ k hscan
      refine ⟨oid, ?_, hname, ?_⟩
      · simpa [State.indexNil, hscan] using hget
      · intro j hj o2 hgo2
        refine hfirst j ?_ o2 hgo2
        simpa [State.indexNil, hscan] using hj
  · intro hneg
    cases hscan : nameScan st n (st.scopes sid).entries with
    | some k =>
      simp only [State.indexNil, hscan] at hneg
      exact absurd hneg (by omega)
    | none => exact (nameScan_eq_none st n _).mp hscan

/-- Witness for C7 at the concrete heap `stM`, scope 3, name `x`: the
hypotheses of both inner implications are settled concretely (the first
one holds, the second is refuted), and the first yields entry 2 at
position 0. -/
theorem C7_unqualified_first_match_witness :
    (0 ≤ stM.indexNil (some 3) "x" ∧
      ∃ oid, (stM.scopes 3).entries.get? (stM.indexNil (some 3) "x").toNat = some oid ∧
        (stM.objs oid).name = "x" ∧
        ∀ j, j < (stM.indexNil (some 3) "x").toNat → ∀ o2,
          (stM.scopes 3).entries.get? j = some o2 → (stM.objs o2).name ≠ "x") ∧
    ¬ stM.indexNil (some 3) "x" < 0 :=
  ⟨⟨by decide, (C7_unqualified_first_match stM 3 "x").2.1 (by decide)⟩, by decide⟩

/-- Witness for C6 at the concrete heap `stM` and its empty, parentless
scope 5. -/
theorem C6_absent_equals_empty_witness :
    (stM.scopes 5).entries = [] ∧ (stM.scopes 5).parent = none ∧
    (stM.numEntries (some 5) = 0 ∧
      stM.isEmpty (some 5) = true ∧
      (∀ pkg n, stM.index (some 5) pkg n = .ok (-1)) ∧
      (∀ pkg n, stM.lookup (some 5) pkg n = .ok none) ∧
      (∀ n fuel, stM.lookupParent (fuel + 1) (some 5) n = some none)) :=
  ⟨rfl, rfl, (C6_absent_equals_empty stM).2.2.2.2.2.2 5 rfl rfl⟩

/-- C1: with a non-absent qualifier `q`, `Index(q, n)` (and hence
`Lookup(q, n)`) matches an entry exactly when its name equals `n` and the
name is exported or the entry's owning object's package path equals
`q`'s: a non-negative result is the position of the first such entry and
makes `Lookup` return that entry, and a negative result means no entry
matches and makes `Lookup` return the nil object. -/
theorem C1_qualified_identity (st : State) (sid : Nat) (q : Package) (n : String) (i : Int)
    (h : st.index (some sid) (some q) n = .ok i) :
    (0 ≤ i → ∃ oid, (st.scopes sid).entries.get? i.toNat = some oid ∧
        qualMatches st q n oid = true ∧
        (∀ j, j < i.toNat → ∀ o2, (st.scopes sid).entries.get? j = some o2 →
          qualMatches st q n o2 = false) ∧
        st.lookup (some sid) (some q) n = .ok (some oid)) ∧
    (i < 0 → (∀ oid ∈ (st.scopes sid).entries, qualMatches st q n oid = false) ∧
        st.lookup (some sid) (some q) n = .ok none) := by
  have h' : (qualScan st q n (st.scopes sid).entries).map
      (fun r => match r with | some k => (k : Int) | none => -1) = .ok i := h
  rw [except_map_ok] at h'
  obtain ⟨r, hr, hconv⟩ := h'
  cases r with
  | some k =>
    simp only [] at hconv
    subst hconv
    constructor
    · intro _
      obtain ⟨oid, hget, hm, hfirst⟩ := qualScan_ok_some st q n _ k hr
      have htoNat : ((k : Int)).toNat = k := Int.toNat_natCast k
      have h0 : (0 : Int) ≤ (k : Int) := Int.natCast_nonneg k
      have hn : ¬ ((k : Int) < 0) := by omega
      refine ⟨oid, by rwa [htoNat], hm, ?_, ?_⟩
      · intro j hj o2 hgo2
        exact hfirst j (by omega) o2 hgo2
      · have hat : st.at' (some sid) ((k : Int)) = some oid := by
          simp [State.at', hn, htoNat]
          simpa using hget
        simp [State.lookup, h, Except.map, h0, hat]
    · intro hneg
      exact absurd hneg (by omega)
  | none =>
    simp only [] at hconv
    subst hconv
    constructor
    · intro hpos
      exact absurd hpos (by omega)
    · intro _
      refine ⟨qualScan_ok_none st q n _ hr, ?_⟩
      simp [State.lookup, h, Except.map]

/-- Witness for C1 at the concrete heap `stM`, scope 3 (entries `x` from
package `a`, `x` from package `b`, `Y` from package `a`), qualifier
package `b`, name `x`: the index is 1, and the non-negative case yields
entry 3 with the earlier entry rejected. -/
theorem C1_qualified_identity_witness :
    stM.index (some 3) (some ⟨"b"⟩) "x" = .ok 1 ∧
    0 ≤ (1 : Int) ∧
    (∃ oid, (stM.scopes 3).entries.get? (1 : Int).toNat = some oid ∧
        qualMatches stM ⟨"b"⟩ "x" oid = true ∧
        (∀ j, j < (1 : Int).toNat → ∀ o2, (stM.scopes 3).entries.get? j = some o2 →
          qualMatches stM ⟨"b"⟩ "x" o2 = false) ∧
        stM.lookup (some 3) (some ⟨"b"⟩) "x" = .ok (some oid)) :=
  ⟨rfl, by decide, (C1_qualified_identity stM 3 ⟨"b"⟩ "x" 1 rfl).1 (by decide)⟩

/-! ### Helper lemmas: unqualified index and parent-chain walking -/

theorem indexNil_found (st : State) (sid : Nat) (n : String)
    (h : 0 ≤ st.indexNil (some sid) n) :
    ∃ oid, st.at' (some sid) (st.indexNil (some sid) n) = some oid ∧
      (st.objs oid).name = n := by
  cases hscan : nameScan st n (st.scopes sid).entries with
  | none => simp [State.indexNil, hscan] at h
  | some k =>
    obtain ⟨oid, hget, hname, _⟩ := nameScan_eq_some st n _ k hscan
    have hidx : st.indexNil (some sid) n = (k : Int) := by
      simp [State.indexNil, hscan]
    have hn : ¬ ((k : Int) < 0) := by omega
    refine ⟨oid, ?_, hname⟩
    rw [hidx]
    simpa [State.at', hn, Int.toNat_natCast] using hget

theorem indexNil_neg_of_absent (st : State) (sid : Nat) (n : String)
    (h : ∀ oid ∈ (st.scopes sid).entries, (st.objs oid).name ≠ n) :
    st.indexNil (some sid) n = -1 := by
  have hscan : nameScan st n (st.scopes sid).entries = none := (nameScan_eq_none st n _).mpr h
  simp [State.indexNil, hscan]

theorem lookupParentAux_found (st : State) (n : String) (f sid : Nat)
    (h : 0 ≤ st.indexNil (some sid) n) :
    st.lookupParentAux n (f + 1) (some sid) =
      some (st.at' (some sid) (st.indexNil (some sid) n), 1) := by
  simp [State.lookupParentAux, h]

theorem lookupParentAux_step (st : State) (n : String) (f sid : Nat)
    (h : st.indexNil (some sid) n < 0) :
    st.lookupParentAux n (f + 1) (some sid) =
      (st.lookupParentAux n f (st.scopes sid).parent).map (fun rc => (rc.1, rc.2 + 1)) := by
  have h' : ¬ (0 ≤ st.indexNil (some sid) n) := by omega
  simp [State.lookupParentAux, h']

/-- C2: `LookupParent` searches the scope itself first and returns its
first match when one exists; when the scope has no match it recurses into
the parent; in particular with parent `sp` holding an `x` entry, a child
`sc1` that also declares `x` resolves to its own `x`, and a child `sc2`
that never declares `x` resolves to `sp`'s `x`. -/
theorem C2_innermost_wins (st : State) (sp sc1 sc2 : Nat) (x : String) (f : Nat)
    (hpar1 : (st.scopes sc1).parent = some sp)
    (hpar2 : (st.scopes sc2).parent = some sp)
    (hdecl : 0 ≤ st.indexNil (some sc1) x)
    (hnodecl : st.indexNil (some sc2) x < 0)
    (hsp : 0 ≤ st.indexNil (some sp) x) :
    (∀ s', 0 ≤ st.indexNil (some s') x →
      st.lookupParent (f + 1) (some s') x =
        some (st.at' (some s') (st.indexNil (some s') x))) ∧
    (∀ s' g, st.indexNil (some s') x < 0 →
      st.lookupParent (g + 1) (some s') x =
        st.lookupParent g ((st.scopes s').parent) x) ∧
    (∃ oid, st.at' (some sc1) (st.indexNil (some sc1) x) = some oid ∧
      (st.objs oid).name = x ∧
      st.lookupParent (f + 2) (some sc1) x = some (some oid)) ∧
    (∃ oid, st.at' (some sp) (st.indexNil (some sp) x) = some oid ∧
      (st.objs oid).name = x ∧
      st.lookupParent (f + 2) (some sc2) x = some (some oid)) := by
  refine ⟨?_, ?_, ?_, ?_⟩
  · intro s' h'
    rw [State.lookupParent, lookupParentAux_found st x f s' h']
    rfl
  · intro s' g h'
    rw [State.lookupParent, lookupParentAux_step st x g s' h', State.lookupParent,
      Option.map_map]
    rfl
  · obtain ⟨oid, hat, hname⟩ := indexNil_found st sc1 x hdecl
    refine ⟨oid, hat, hname, ?_⟩
    rw [show f + 2 = (f + 1) + 1 from rfl, State.lookupParent,
      lookupParentAux_found st x (f + 1) sc1 hdecl, hat]
    rfl
  · obtain ⟨oid, hat, hname⟩ := indexNil_found st sp x hsp
    refine ⟨oid, hat, hname, ?_⟩
    rw [show f + 2 = (f + 1) + 1 from rfl, State.lookupParent,
      lookupParentAux_step st x (f + 1) sc2 hnodecl, hpar2,
      lookupParentAux_found st x f sp hsp, hat]
    rfl

/-- Witness for C2 at the concrete heap `stM`: parent scope 0 holds
object 0 (`x`), child scope 1 also declares `x` (object 1) and resolves
to it, child scope 2 declares nothing and resolves to object 0. -/
theorem C2_innermost_wins_witness :
    (stM.scopes 1).parent = some 0 ∧
    (stM.scopes 2).parent = some 0 ∧
    0 ≤ stM.indexNil (some 1) "x" ∧
    stM.indexNil (some 2) "x" < 0 ∧
    0 ≤ stM.indexNil (some 0) "x" ∧
    (∃ oid, stM.at' (some 1) (stM.indexNil (some 1) "x") = some oid ∧
      (stM.objs oid).name = "x" ∧
      stM.lookupParent (0 + 2) (some 1) "x" = some (some oid)) ∧
    (∃ oid, stM.at' (some 0) (stM.indexNil (some 0) "x") = some oid ∧
      (stM.objs oid).name = "x" ∧
      stM.lookupParent (0 + 2) (some 2) "x" = some (some oid)) :=
  ⟨rfl, rfl, by decide, by decide, by decide,
    (C2_innermost_wins stM 0 1 2 "x" 0 rfl rfl (by decide) (by decide) (by decide)).2.2.1,
    (C2_innermost_wins stM 0 1 2 "x" 0 rfl rfl (by decide) (by decide) (by decide)).2.2.2⟩

/-- C8 (P6): on a finite (acyclic) ancestor chain none of whose scopes
contains an entry named `n`, `LookupParent` terminates with not-found
after visiting each scope of the chain exactly once. -/
theorem C8_chain_termination (st : State) (n : String) (fuel : Nat) (s : Option Nat)
    (l : List Nat)
    (hchain : st.chainList fuel s = some l)
    (habsent : ∀ sid ∈ l, ∀ oid ∈ (st.scopes sid).entries, (st.objs oid).name ≠ n) :
    st.lookupParentAux n fuel s = some (none, l.length) ∧
    st.lookupParent fuel s n = some none := by
  induction fuel generalizing s l with
  | zero =>
    cases s with
    | none =>
      simp [State.chainList] at hchain
      subst hchain
      exact ⟨rfl, rfl⟩
    | some sid => simp [State.chainList] at hchain
  | succ f ih =>
    cases s with
    | none =>
      simp [State.chainList] at hchain
      subst hchain
      exact ⟨rfl, rfl⟩
    | some sid =>
      simp [State.chainList] at hchain
      obtain ⟨l', hl', hcons⟩ := hchain
      subst hcons
      have hidx : st.indexNil (some sid) n = -1 :=
        indexNil_neg_of_absent st sid n (habsent sid (by simp))
      have hstep := lookupParentAux_step st n f sid (by rw [hidx]; omega)
      have hrec := ih (st.scopes sid).parent l' hl'
        (fun s2 hs2 => habsent s2 (by simp [hs2]))
      constructor
      · rw [hstep, hrec.1]
        simp
      · rw [State.lookupParent, hstep, hrec.1]
        simp

/-- Witness for C8 at the concrete heap `stM`: the chain from scope 1 is
`[1, 0]`, neither scope has an entry named `zz`, and the walk returns
not-found after exactly 2 visits. -/
theorem C8_chain_termination_witness :
    stM.chainList 3 (some 1) = some [1, 0] ∧
    (∀ sid ∈ [1, 0], ∀ oid ∈ (stM.scopes sid).entries, (stM.objs oid).name ≠ "zz") ∧
    stM.lookupParentAux "zz" 3 (some 1) = some (none, [1, 0].length) ∧
    stM.lookupParent 3 (some 1) "zz" = some none :=
  ⟨rfl, by decide,
    (C8_chain_termination stM "zz" 3 (some 1) [1, 0] rfl (by decide)).1,
    (C8_chain_termination stM "zz" 3 (some 1) [1, 0] rfl (by decide)).2⟩

/-! ### Insert: conflict atomicity, ownership, order -/

theorem insert_no_conflict (st : State) (sid oid : Nat)
    (hl : st.lookup (some sid) (st.objs oid).pkg (st.objs oid).name = .ok none)
    (hown : (st.objs oid).sparent = none) :
    st.insert (some sid) oid = .ok
      ({ st with
         scopes := fun k =>
           if k = sid then { st.scopes k with entries := (st.scopes k).entries ++ [oid] }
           else st.scopes k,
         objs := fun k =>
           if k = oid then { st.objs k with sparent := some sid } else st.objs k }, none) := by
  simp [State.insert, hl, State.setParent, hown, Except.map]

/-- C3 (P3): when the target scope already holds a conflicting entry
(the conflict check `Lookup(obj.Pkg(), obj.Name())` hits `alt`), `Insert`
leaves the heap — hence `entries` and `NumEntries` — untouched and
returns the pre-existing entry `alt`, not the inserted object; otherwise
(on a real scope, for a not-yet-owned object) it appends the object to
the target's entries, growing `NumEntries` by one and touching no other
scope, and returns the no-conflict (nil) result. -/
theorem C3_insert_conflict_atomic (st : State) (s : Option Nat) (oid : Nat) :
    (∀ alt, st.lookup s (st.objs oid).pkg (st.objs oid).name = .ok (some alt) →
      st.insert s oid = .ok (st, some alt)) ∧
    (∀ sid, s = some sid →
      st.lookup s (st.objs oid).pkg (st.objs oid).name = .ok none →
      (st.objs oid).sparent = none →
      ∃ st', st.insert s oid = .ok (st', none) ∧
        (st'.scopes sid).entries = (st.scopes sid).entries ++ [oid] ∧
        st'.numEntries (some sid) = st.numEntries (some sid) + 1 ∧
        (∀ k, k ≠ sid → st'.scopes k = st.scopes k)) := by
  constructor
  · intro alt halt
    simp [State.insert, halt]
  · rintro sid rfl hnone hown
    refine ⟨_, insert_no_conflict st sid oid hnone hown, ?_, ?_, ?_⟩
    · simp
    · simp [State.numEntries]
    · intro k hk
      simp [hk]

/-- Witness for C3 at `stM`: inserting object 6 (`v` from `p`) into
scope 4 conflicts with entry 5 and returns it unchanged; inserting the
fresh object 7 (`w` from `p`) into the empty scope 5 appends it. -/
theorem C3_insert_conflict_atomic_witness :
    (stM.lookup (some 4) (stM.objs 6).pkg (stM.objs 6).name = .ok (some 5) ∧
      stM.insert (some 4) 6 = .ok (stM, some 5)) ∧
    (stM.lookup (some 5) (stM.objs 7).pkg (stM.objs 7).name = .ok none ∧
      (stM.objs 7).sparent = none ∧
      ∃ st', stM.insert (some 5) 7 = .ok (st', none) ∧
        (st'.scopes 5).entries = (stM.scopes 5).entries ++ [7] ∧
        st'.numEntries (some 5) = stM.numEntries (some 5) + 1 ∧
        (∀ k, k ≠ 5 → st'.scopes k = stM.scopes k)) :=
  ⟨⟨by decide, (C3_insert_conflict_atomic stM (some 4) 6).1 5 (by decide)⟩,
   ⟨by decide, rfl,
     (C3_insert_conflict_atomic stM (some 5) 7).2 5 rfl (by decide) rfl⟩⟩

theorem insert_preserves_owner (st st' : State) (s : Option Nat) (oid2 oid : Nat)
    (r : Option Nat) (p : Nat)
    (hp : (st.objs oid).sparent = some p)
    (h : st.insert s oid2 = .ok (st', r)) :
    (st'.objs oid).sparent = some p := by
  cases hl : st.lookup s (st.objs oid2).pkg (st.objs oid2).name with
  | error f => simp [State.insert, hl] at h
  | ok or =>
    cases or with
    | some alt =>
      simp [State.insert, hl] at h
      obtain ⟨h1, h2⟩ := h
      subst h1
      exact hp
    | none =>
      cases s with
      | none => simp [State.insert, hl] at h
      | some sid =>
        cases hsp2 : (st.objs oid2).sparent with
        | some q => simp [State.insert, hl, State.setParent, hsp2, Except.map] at h
        | none =>
          simp [State.insert, hl, State.setParent, hsp2, Except.map] at h
          obtain ⟨h1, h2⟩ := h
          subst h1
          by_cases he : oid = oid2
          · subst he
            rw [hp] at hsp2
            cases hsp2
          · simpa [he] using hp

/-- C4 (I2): across any sequence of `Insert` operations, an object's
owning-scope back-reference, once set, is never changed by any later
operation that completes; it is set, to the inserting scope, by the first
`Insert` that actually adds the object (returns the no-conflict result);
and a later conflict-free `Insert` of an already-owned object into
another scope does not complete — it violates the Object collaborator's
single-assignment contract instead of reassigning. -/
theorem C4_single_ownership :
    (∀ (st st' : State) (cmds : List (Option Nat × Nat)) (oid p : Nat),
      (st.objs oid).sparent = some p →
      st.runInserts cmds = .ok st' →
      (st'.objs oid).sparent = some p) ∧
    (∀ (st st' : State) (sid oid : Nat),
      (st.objs oid).sparent = none →
      st.insert (some sid) oid = .ok (st', none) →
      (st'.objs oid).sparent = some sid) ∧
    (∀ (st : State) (sid oid : Nat),
      (st.objs oid).sparent ≠ none →
      st.lookup (some sid) (st.objs oid).pkg (st.objs oid).name = .ok none →
      st.insert (some sid) oid = .error .reassignOwner) := by
  refine ⟨?_, ?_, ?_⟩
  · intro st st' cmds
    induction cmds generalizing st with
    | nil =>
      intro oid p hp h
      simp [State.runInserts] at h
      subst h
      exact hp
    | cons c rest ih =>
      intro oid p hp h
      obtain ⟨s, oid2⟩ := c
      simp only [State.runInserts] at h
      cases hins : st.insert s oid2 with
      | error f => rw [hins] at h; cases h
      | ok pr =>
        obtain ⟨st1, r⟩ := pr
        rw [hins] at h
        exact ih st1 oid p (insert_preserves_owner st st1 s oid2 oid r p hp hins) h
  · intro st st' sid oid hnone hins
    cases hl : st.lookup (some sid) (st.objs oid).pkg (st.objs oid).name with
    | error f => simp [State.insert, hl] at hins
    | ok or =>
      cases or with
      | some alt => simp [State.insert, hl] at hins
      | none =>
        rw [insert_no_conflict st sid oid hl hnone] at hins
        injection hins with hpair
        injection hpair with h1 h2
        subst h1
        simp
  · intro st sid oid hown hl
    cases hsp : (st.objs oid).sparent with
    | none => exact absurd hsp hown
    | some q => simp [State.insert, hl, State.setParent, hsp, Except.map]

/-- Witness for C4 at `stM`: object 0 is owned by scope 0; running an
insert of object 7 into scope 5 leaves that ownership untouched
(heap `stA`), that insert is object 7's first successful one, setting
its owner to scope 5 (heap `stB`), and re-inserting the now-owned object
7 into the different scope 2 faults rather than reassigning. -/
theorem C4_single_ownership_witness :
    (stM.objs 0).sparent = some 0 ∧
    stM.runInserts [(some 5, 7)] = .ok stA ∧
    (stA.objs 0).sparent = some 0 ∧
    (stM.objs 7).sparent = none ∧
    stM.insert (some 5) 7 = .ok (stB, none) ∧
    (stB.objs 7).sparent = some 5 ∧
    stB.insert (some 2) 7 = .error .reassignOwner :=
  ⟨rfl, rfl, C4_single_ownership.1 stM stA [(some 5, 7)] 0 0 rfl rfl,
   rfl, rfl, C4_single_ownership.2.1 stM stB 5 7 rfl rfl,
   C4_single_ownership.2.2 stB 2 7 (by decide) (by decide)⟩

theorem entryConflict_congr (a a' b b' : ObjState)
    (han : a.name = a'.name) (hap : a.pkg = a'.pkg)
    (hbn : b.name = b'.name) (hbp : b.pkg = b'.pkg) :
    entryConflict a b = entryConflict a' b' := by
  simp only [entryConflict, han, hap, hbn, hbp]

theorem entryConflict_self (o : ObjState) : entryConflict o o ≠ .ok false := by
  intro h
  cases hp : o.pkg with
  | none => simp [entryConflict, hp] at h
  | some q =>
    by_cases he : isExported o.name
    · simp [entryConflict, hp, he] at h
    · simp [entryConflict, hp, he] at h

theorem nameScan_conflict_free (st : State) (b : ObjState) (hbp : b.pkg = none)
    (l : List Nat) (h : ∀ a ∈ l, entryConflict (st.objs a) b = .ok false) :
    nameScan st b.name l = none := by
  apply (nameScan_eq_none st b.name l).mpr
  intro a ha
  simpa [entryConflict, hbp] using h a ha

theorem qualScan_conflict_free (st : State) (b : ObjState) (q : Package)
    (hbp : b.pkg = some q) :
    ∀ l : List Nat, (∀ a ∈ l, entryConflict (st.objs a) b = .ok false) →
      qualScan st q b.name l = .ok none := by
  intro l
  induction l with
  | nil => intro _; rfl
  | cons a rest ih =>
    intro h
    have ha := h a (by simp)
    have hrest : qualScan st q b.name rest = .ok none :=
      ih (fun a' ha' => h a' (by simp [ha']))
    by_cases hn : (st.objs a).name = b.name
    · by_cases he : isExported b.name
      · simp [entryConflict, hbp, hn, he] at ha
      · cases hap : (st.objs a).pkg with
        | none => simp [entryConflict, hbp, hn, he, hap] at ha
        | some p =>
          simp [entryConflict, hbp, hn, he, hap] at ha
          simp [qualScan, hn, he, hap, ha, hrest, Except.map]
    · simp [qualScan, hn, hrest, Except.map]

theorem lookup_conflict_free (st : State) (sid : Nat) (b : ObjState)
    (h : ∀ a ∈ (st.scopes sid).entries, entryConflict (st.objs a) b = .ok false) :
    st.lookup (some sid) b.pkg b.name = .ok none := by
  cases hbp : b.pkg with
  | none =>
    have hscan := nameScan_conflict_free st b hbp _ h
    have hidx : st.indexNil (some sid) b.name = -1 := by simp [State.indexNil, hscan]
    simp [State.lookup, State.index, hidx, Except.map]
  | some q =>
    have hscan := qualScan_conflict_free st b q hbp _ h
    simp [State.lookup, State.index, hscan, Except.map]

theorem runInserts_conflict_free (sid : Nat) :
    ∀ (rest : List Nat) (st : State),
      (∀ b ∈ rest, (st.objs b).sparent = none) →
      List.Pairwise (fun a b => entryConflict (st.objs a) (st.objs b) = .ok false) rest →
      (∀ a ∈ (st.scopes sid).entries, ∀ b ∈ rest,
        entryConflict (st.objs a) (st.objs b) = .ok false) →
      ∃ st', st.runInserts (rest.map (fun o => (some sid, o))) = .ok st' ∧
        (st'.scopes sid).entries = (st.scopes sid).entries ++ rest := by
  intro rest
  induction rest with
  | nil => intro st _ _ _; exact ⟨st, rfl, by simp⟩
  | cons b rest' ih =>
    intro st hfresh hpw hent
    obtain ⟨hpwhead, hpwtail⟩ := List.pairwise_cons.mp hpw
    have hb : ∀ a ∈ (st.scopes sid).entries, entryConflict (st.objs a) (st.objs b) = .ok false :=
      fun a ha => hent a ha b (by simp)
    have hlook := lookup_conflict_free st sid (st.objs b) hb
    have hown : (st.objs b).sparent = none := hfresh b (by simp)
    have hins := insert_no_conflict st sid b hlook hown
    set st1 : State :=
      { st with
        scopes := fun k =>
          if k = sid then { st.scopes k with entries := (st.scopes k).entries ++ [b] }
          else st.scopes k,
        objs := fun k =>
          if k = b then { st.objs k with sparent := some sid } else st.objs k } with hst1
    have hnamepkg : ∀ k, (st1.objs k).name = (st.objs k).name ∧
        (st1.objs k).pkg = (st.objs k).pkg := by
      intro k
      by_cases hk : k = b <;> simp [hst1, hk]
    have hcong : ∀ a c,
        entryConflict (st1.objs a) (st1.objs c) = entryConflict (st.objs a) (st.objs c) :=
      fun a c => entryConflict_congr _ _ _ _
        (hnamepkg a).1 (hnamepkg a).2 (hnamepkg c).1 (hnamepkg c).2
    have hbne : ∀ c ∈ rest', c ≠ b := by
      intro c hc hcb
      subst hcb
      exact entryConflict_self _ (hpwhead c hc)
    have hfresh' : ∀ c ∈ rest', (st1.objs c).sparent = none := by
      intro c hc
      have hne := hbne c hc
      simp only [hst1]
      simp [hne]
      exact hfresh c (by simp [hc])
    have hpw' : List.Pairwise
        (fun a c => entryConflict (st1.objs a) (st1.objs c) = .ok false) rest' := by
      refine hpwtail.imp ?_
      intro a c hac
      rw [hcong]
      exact hac
    have hent' : ∀ a ∈ (st1.scopes sid).entries, ∀ c ∈ rest',
        entryConflict (st1.objs a) (st1.objs c) = .ok false := by
      intro a ha c hc
      rw [hcong]
      have hmem : a ∈ (st.scopes sid).entries ++ [b] := by simpa [hst1] using ha
      rcases List.mem_append.mp hmem with h1 | h1
      · exact hent a h1 c (by simp [hc])
      · have hab : a = b := by simpa using h1
        subst hab
        exact hpwhead c hc
    obtain ⟨st', hrun, hentries⟩ := ih st1 hfresh' hpw' hent'
    refine ⟨st', ?_, ?_⟩
    · simp only [List.map_cons, State.runInserts, hins]
      exact hrun
    · rw [hentries]
      simp [hst1]

/-- C5 (P2): inserting, into one initially empty scope, objects whose
identities are pairwise conflict-free under the identity rule (and which
are not yet owned) succeeds, yields `NumEntries` equal to their number,
and `At(i)` returns the i'th inserted object, preserving insertion
order. -/
theorem C5_order_uniqueness (st : State) (sid : Nat) (oids : List Nat)
    (hempty : (st.scopes sid).entries = [])
    (hfresh : ∀ oid ∈ oids, (st.objs oid).sparent = none)
    (hdist : List.Pairwise
      (fun a b => entryConflict (st.objs a) (st.objs b) = .ok false) oids) :
    ∃ st', st.runInserts (oids.map (fun o => (some sid, o))) = .ok st' ∧
      st'.numEntries (some sid) = (oids.length : Int) ∧
      ∀ i : Nat, i < oids.length →
        ∃ oid, oids.get? i = some oid ∧ st'.at' (some sid) (i : Int) = some oid := by
  obtain ⟨st', hrun, hent⟩ := runInserts_conflict_free sid oids st hfresh hdist
    (by rw [hempty]; intro a ha; cases ha)
  rw [hempty] at hent
  simp only [List.nil_append] at hent
  refine ⟨st', hrun, ?_, ?_⟩
  · simp [State.numEntries, hent]
  · intro i hi
    cases hg : oids.get? i with
    | none => exact absurd (List.get?_eq_none.mp hg) (by omega)
    | some oid =>
      refine ⟨oid, rfl, ?_⟩
      have hn : ¬ ((i : Int) < 0) := by omega
      simpa [State.at', hn, Int.toNat_natCast, hent] using hg

/-- Witness for C5 at `stM`: inserting the fresh, conflict-free objects 7
(`w` from `p`) and 8 (`u` from `q`) into the empty scope 5 yields 2
entries in insertion order. -/
theorem C5_order_uniqueness_witness :
    (stM.scopes 5).entries = [] ∧
    (∀ oid ∈ [7, 8], (stM.objs oid).sparent = none) ∧
    List.Pairwise
      (fun a b => entryConflict (stM.objs a) (stM.objs b) = .ok false) [7, 8] ∧
    (∃ st', stM.runInserts ([7, 8].map (fun o => (some 5, o))) = .ok st' ∧
      st'.numEntries (some 5) = (([7, 8] : List Nat).length : Int) ∧
      ∀ i : Nat, i < ([7, 8] : List Nat).length →
        ∃ oid, ([7, 8] : List Nat).get? i = some oid ∧
          st'.at' (some 5) (i : Int) = some oid) :=
  ⟨rfl, by decide, by decide,
    C5_order_uniqueness stM 5 [7, 8] rfl (by decide) (by decide)⟩

/-! ### Qualified lookup over no-package (builtin) entries -/

theorem qualScan_fault (st : State) (q : Package) (n : String)
    (hexp : isExported n = false) :
    ∀ (l : List Nat) (j oid : Nat), l.get? j = some oid →
      (st.objs oid).name = n → (st.objs oid).pkg = none →
      (∀ k, k < j → ∀ o2, l.get? k = some o2 →
        ¬((st.objs o2).name = n ∧ ∃ p, (st.objs o2).pkg = some p ∧ p.path = q.path)) →
      qualScan st q n l = .error .nilDeref := by
  intro l
  induction l with
  | nil => intro j oid hget; simp at hget
  | cons a rest ih =>
    intro j oid hget hname hpkg hearlier
    cases j with
    | zero =>
      simp at hget
      subst hget
      simp [qualScan, hname, hexp, hpkg]
    | succ j' =>
      have hget' : rest.get? j' = some oid := by simpa using hget
      have hearlier' : ∀ k, k < j' → ∀ o2, rest.get? k = some o2 →
          ¬((st.objs o2).name = n ∧ ∃ p, (st.objs o2).pkg = some p ∧ p.path = q.path) :=
        fun k hk o2 hg2 => hearlier (k + 1) (by omega) o2 (by simpa using hg2)
      have hrest := ih j' oid hget' hname hpkg hearlier'
      have h0 := hearlier 0 (by omega) a (by simp)
      by_cases hn : (st.objs a).name = n
      · cases hap : (st.objs a).pkg with
        | none => simp [qualScan, hn, hexp, hap]
        | some p =>
          have hne : ¬ (p.path = q.path) := fun hpq => h0 ⟨hn, p, hap, hpq⟩
          simp [qualScan, hn, hexp, hap, hne, hrest, Except.map]
      · simp [qualScan, hn, hrest, Except.map]

/-- C10 amended: when a scope's first entry that matches the qualified
query — name equal and (exported or package path equal to the
qualifier's) — comes no earlier than an entry whose name equals the
(unexported) query name but whose object has no package, the qualified
`Index` dereferences that absent package and faults instead of
answering, and `Lookup` and `Insert`'s conflict check inherit the
fault. -/
theorem C10_qualified_fault (st : State) (sid : Nat) (q : Package) (n : String)
    (j oid : Nat)
    (hget : (st.scopes sid).entries.get? j = some oid)
    (hname : (st.objs oid).name = n)
    (hexp : isExported n = false)
    (hpkg : (st.objs oid).pkg = none)
    (hearlier : ∀ k, k < j → ∀ o2, (st.scopes sid).entries.get? k = some o2 →
      ¬((st.objs o2).name = n ∧ ∃ p, (st.objs o2).pkg = some p ∧ p.path = q.path)) :
    st.index (some sid) (some q) n = .error .nilDeref ∧
    st.lookup (some sid) (some q) n = .error .nilDeref ∧
    (∀ b, (st.objs b).name = n → (st.objs b).pkg = some q →
      st.insert (some sid) b = .error .nilDeref) := by
  have hscan := qualScan_fault st q n hexp _ j oid hget hname hpkg hearlier
  have hidx : st.index (some sid) (some q) n = .error .nilDeref := by
    simp [State.index, hscan, Except.map]
  have hlook : st.lookup (some sid) (some q) n = .error .nilDeref := by
    simp [State.lookup, hidx, Except.map]
  refine ⟨hidx, hlook, ?_⟩
  intro b hbn hbp
  rw [State.insert, hbn, hbp, hlook]

/-- Witness for the amended C10 at `stM`, scope 6 (entries: object 9
named `y`, then object 10 named `x` with no package), qualifier `b`,
name `x`: the walk reaches the no-package entry and faults, and so do
`Lookup` and an `Insert` of object 11 (`x` from package `b`). -/
theorem C10_qualified_fault_witness :
    (stM.scopes 6).entries.get? 1 = some 10 ∧
    (stM.objs 10).name = "x" ∧
    isExported "x" = false ∧
    (stM.objs 10).pkg = none ∧
    stM.index (some 6) (some ⟨"b"⟩) "x" = .error .nilDeref ∧
    stM.lookup (some 6) (some ⟨"b"⟩) "x" = .error .nilDeref ∧
    stM.insert (some 6) 11 = .error .nilDeref := by
  have hearlier : ∀ k, k < 1 → ∀ o2, (stM.scopes 6).entries.get? k = some o2 →
      ¬((stM.objs o2).name = "x" ∧
        ∃ p, (stM.objs o2).pkg = some p ∧ p.path = Package.path ⟨"b"⟩) := by
    intro k hk o2 hg2
    have hk0 : k = 0 := by omega
    subst hk0
    have ho2 : o2 = 9 := by
      have h9 : (stM.scopes 6).entries.get? 0 = some 9 := rfl
      rw [h9] at hg2
      exact (Option.some.inj hg2).symm
    subst ho2
    rintro ⟨hcon, -⟩
    exact absurd hcon (by decide)
  have h := C10_qualified_fault stM 6 ⟨"b"⟩ "x" 1 10 rfl rfl rfl rfl hearlier
  exact ⟨rfl, rfl, rfl, rfl, h.1, h.2.1, h.2.2 11 rfl rfl⟩

/-- Counterexample to C10 as stated: scope 7 of `stM` contains entry 10,
whose name `x` equals the query name, is not exported, and whose object
has no package — yet the qualified `Index` with qualifier `b` does not
fault: the earlier entry 11 (`x` from package `b`) matches first, so
`Index` returns 0 and `Lookup` returns that entry. -/
theorem C10_counterexample :
    (stM.scopes 7).entries.get? 1 = some 10 ∧
    (stM.objs 10).name = "x" ∧
    isExported "x" = false ∧
    (stM.objs 10).pkg = none ∧
    stM.index (some 7) (some ⟨"b"⟩) "x" = .ok 0 ∧
    stM.index (some 7) (some ⟨"b"⟩) "x" ≠ .error .nilDeref ∧
    stM.lookup (some 7) (some ⟨"b"⟩) "x" = .ok (some 11) :=
  ⟨rfl, rfl, rfl, rfl, rfl, by decide, rfl⟩
